import Mathlib

/-!
A shallow embedding of the object layer of a content-addressable object
store (a small git implementation in Rust: `git_object.rs`,
`fs_utils.rs`, `git_object/tree_line.rs`), together with theorems
checking its specification against the code.

Modelling conventions:
* byte sequences are `List Nat` (each element a byte value);
* Rust `String`/`&str` values are represented by the list of bytes of
  their UTF-8 encoding (always valid UTF-8), and where character/byte
  distinctions matter (`str::len`, byte slicing) by the list of Unicode
  scalar values together with explicit UTF-8 length computations;
* fallible Rust functions return `PResult`, which distinguishes normal
  `anyhow` errors from panics (out-of-bounds slices, `todo!`);
* the filesystem is an explicit state: a set of directories plus a map
  from file paths to contents, threaded through the write/read paths.
-/

namespace GitModel

/-- Byte sequences. -/
abbrev Bytes := List Nat

/-- Bytes of an ASCII string literal (codepoints of the characters; for
ASCII text these coincide with the UTF-8 bytes). -/
def ascii (s : String) : Bytes := s.data.map Char.toNat

/-- Result of running a Rust computation: success, an `anyhow` error
carrying its message, or a panic (out-of-bounds slice, `todo!`, ...). -/
inductive PResult (α : Type) where
  | ok (a : α)
  | err (e : String)
  | panicked
deriving DecidableEq

def PResult.isOk {α} : PResult α → Bool
  | .ok _ => true
  | _ => false

/-- Model of Rust `slice::split_once`-style splitting at the first
occurrence of a separator byte: returns the part before and the part
after the first `sep`, or `none` when `sep` does not occur.  Mirrors the
`position`-then-slice idiom used throughout the source. -/
def splitOnce (sep : Nat) : Bytes → Option (Bytes × Bytes)
  | [] => none
  | b :: rest =>
    if b = sep then some ([], rest)
    else (splitOnce sep rest).map (fun p => (b :: p.1, p.2))

theorem splitOnce_append_sep (sep : Nat) (xs ys : Bytes) (h : sep ∉ xs) :
    splitOnce sep (xs ++ sep :: ys) = some (xs, ys) := by
  induction xs with
  | nil => simp [splitOnce]
  | cons a as ih =>
    have ha : a ≠ sep := fun hEq => h (hEq ▸ List.mem_cons_self a as)
    have h' : sep ∉ as := fun hm => h (List.mem_cons_of_mem a hm)
    simp [splitOnce, ha, ih h']

theorem splitOnce_lengths (sep : Nat) (l a b : Bytes)
    (h : splitOnce sep l = some (a, b)) :
    l.length = a.length + 1 + b.length := by
  induction l generalizing a b with
  | nil => simp [splitOnce] at h
  | cons x xs ih =>
    by_cases hx : x = sep
    · simp [splitOnce, hx] at h
      obtain ⟨ha, hb⟩ := h
      subst ha; subst hb; simp; omega
    · rw [splitOnce, if_neg hx] at h
      cases hsp : splitOnce sep xs with
      | none => rw [hsp] at h; simp at h
      | some p =>
        rw [hsp] at h
        simp at h
        obtain ⟨ha, hb⟩ := h
        have := ih p.1 p.2 (by rw [hsp])
        subst ha; subst hb
        simp at this ⊢
        omega

/-- Decimal ASCII rendering of a number, as produced by Rust's
`format!("{}")`: fuel-indexed recursion (structural, so that concrete
inputs evaluate inside the kernel); `n` itself is always enough fuel
since the number of decimal digits of `n` is at most `n`. -/
def decAsciiAux (fuel : Nat) (n : Nat) : Bytes :=
  match fuel with
  | 0 => []
  | fuel + 1 => if n = 0 then [] else decAsciiAux fuel (n / 10) ++ [48 + n % 10]

/-- Decimal ASCII rendering of a number (`format!("{}", n)`). -/
def decimalAscii (n : Nat) : Bytes :=
  if n = 0 then [48] else decAsciiAux n n

theorem decAsciiAux_mem (fuel n : Nat) :
    ∀ b ∈ decAsciiAux fuel n, 48 ≤ b ∧ b ≤ 57 := by
  induction fuel generalizing n with
  | zero => intro b hb; simp [decAsciiAux] at hb
  | succ fuel ih =>
    intro b hb
    rw [decAsciiAux] at hb
    by_cases h : n = 0
    · simp [h] at hb
    · rw [if_neg h] at hb
      rcases List.mem_append.mp hb with h1 | h2
      · exact ih (n / 10) b h1
      · simp at h2
        omega

theorem decimalAscii_digits (n : Nat) :
    ∀ b ∈ decimalAscii n, 48 ≤ b ∧ b ≤ 57 := by
  intro b hb
  unfold decimalAscii at hb
  by_cases h : n = 0
  · simp [h] at hb; omega
  · rw [if_neg h] at hb
    exact decAsciiAux_mem n n b hb

theorem decimalAscii_no_space (n : Nat) : (32 : Nat) ∉ decimalAscii n := by
  intro h
  have := decimalAscii_digits n 32 h
  omega

theorem decimalAscii_no_nul (n : Nat) : (0 : Nat) ∉ decimalAscii n := by
  intro h
  have := decimalAscii_digits n 0 h
  omega

theorem decimalAscii_is_ascii (n : Nat) : ∀ b ∈ decimalAscii n, b < 128 := by
  intro b hb
  have := decimalAscii_digits n b hb
  omega

/-- One lowercase hexadecimal digit, as produced by the `hex` crate. -/
def hexDigit (n : Nat) : Nat := if n < 10 then 48 + n else 87 + n

/-- Model of `hex::encode`: lowercase hex ASCII bytes of a byte string. -/
def hexEncode (bs : Bytes) : Bytes :=
  (bs.map (fun b => [hexDigit (b / 16), hexDigit (b % 16)])).flatten

/-! ### UTF-8 encoding and Rust's `String::from_utf8_lossy` -/

/-- A Unicode scalar value: what a Rust `char` may hold. -/
def ValidScalar (c : Nat) : Prop := c < 1114112 ∧ ¬(55296 ≤ c ∧ c ≤ 57343)

instance (c : Nat) : Decidable (ValidScalar c) := by
  unfold ValidScalar; infer_instance

/-- UTF-8 encoding of a single scalar value. -/
def utf8EncodeChar (c : Nat) : Bytes :=
  if c < 128 then [c]
  else if c < 2048 then [192 + c / 64, 128 + c % 64]
  else if c < 65536 then [224 + c / 4096, 128 + c / 64 % 64, 128 + c % 64]
  else [240 + c / 262144, 128 + c / 4096 % 64, 128 + c / 64 % 64, 128 + c % 64]

/-- UTF-8 encoding of a sequence of scalar values (the byte content of a
Rust `String` holding those characters). -/
def utf8Encode (cs : List Nat) : Bytes := (cs.map utf8EncodeChar).flatten

/-- UTF-8 byte length of a string given as scalar values (`str::len`). -/
def utf8Len (cs : List Nat) : Nat := (utf8Encode cs).length

/-- The UTF-8 bytes of U+FFFD REPLACEMENT CHARACTER. -/
def utf8Rep : Bytes := [239, 191, 189]

/-- Whether a byte is a UTF-8 continuation byte (`0x80..=0xBF`). -/
def contB (c : Nat) : Bool := decide (128 ≤ c) && decide (c < 192)

/-- Valid second bytes of a three-byte sequence with lead byte `b`
(`0xE0` and `0xED` have restricted ranges, per the Rust core validator). -/
def snd3B (b c : Nat) : Bool :=
  if b = 224 then decide (160 ≤ c) && decide (c < 192)
  else if b = 237 then decide (128 ≤ c) && decide (c < 160)
  else contB c

/-- Valid second bytes of a four-byte sequence with lead byte `b`
(`0xF0` and `0xF4` have restricted ranges, per the Rust core validator). -/
def snd4B (b c : Nat) : Bool :=
  if b = 240 then decide (144 ≤ c) && decide (c < 192)
  else if b = 244 then decide (128 ≤ c) && decide (c < 144)
  else contB c

/-- Model of `String::from_utf8_lossy(...).to_string()` at the byte
level: returns the UTF-8 bytes of the resulting string.  Invalid
sequences are replaced by U+FFFD following the maximal-subpart rule used
by Rust's standard library (replace the longest valid prefix of a
malformed sequence and resume at the offending byte; a truncated
sequence at the end of input yields a single replacement). -/
def utf8Lossy : Bytes → Bytes
  | [] => []
  | b :: rest =>
    if b < 128 then b :: utf8Lossy rest
    else if b < 194 then utf8Rep ++ utf8Lossy rest
    else if b < 224 then
      match rest with
      | [] => utf8Rep
      | c :: rest2 =>
        if contB c then b :: c :: utf8Lossy rest2
        else utf8Rep ++ utf8Lossy (c :: rest2)
    else if b < 240 then
      match rest with
      | [] => utf8Rep
      | c :: rest2 =>
        if snd3B b c then
          match rest2 with
          | [] => utf8Rep
          | d :: rest3 =>
            if contB d then b :: c :: d :: utf8Lossy rest3
            else utf8Rep ++ utf8Lossy (d :: rest3)
        else utf8Rep ++ utf8Lossy (c :: rest2)
    else if b < 245 then
      match rest with
      | [] => utf8Rep
      | c :: rest2 =>
        if snd4B b c then
          match rest2 with
          | [] => utf8Rep
          | d :: rest3 =>
            if contB d then
              match rest3 with
              | [] => utf8Rep
              | e :: rest4 =>
                if contB e then b :: c :: d :: e :: utf8Lossy rest4
                else utf8Rep ++ utf8Lossy (e :: rest4)
            else utf8Rep ++ utf8Lossy (d :: rest3)
        else utf8Rep ++ utf8Lossy (c :: rest2)
    else utf8Rep ++ utf8Lossy rest

theorem utf8Lossy_ascii_cons (b : Nat) (hb : b < 128) (l : Bytes) :
    utf8Lossy (b :: l) = b :: utf8Lossy l := by
  rw [utf8Lossy.eq_def]
  simp only []
  rw [if_pos hb]

theorem utf8Lossy_ascii_append (l t : Bytes) (h : ∀ b ∈ l, b < 128) :
    utf8Lossy (l ++ t) = l ++ utf8Lossy t := by
  induction l with
  | nil => rfl
  | cons a as ih =>
    have ha : a < 128 := h a (List.mem_cons_self a as)
    have h' : ∀ b ∈ as, b < 128 := fun b hb => h b (List.mem_cons_of_mem a hb)
    rw [List.cons_append, utf8Lossy_ascii_cons a ha, ih h', List.cons_append]

theorem utf8Lossy_twoByte (b c : Nat) (hb1 : 194 ≤ b) (hb2 : b < 224)
    (hc : contB c = true) (t : Bytes) :
    utf8Lossy (b :: c :: t) = b :: c :: utf8Lossy t := by
  rw [utf8Lossy.eq_def]
  simp only []
  rw [if_neg (by omega), if_neg (by omega), if_pos hb2]
  simp [hc]

theorem utf8Lossy_threeByte (b c d : Nat) (hb1 : 224 ≤ b) (hb2 : b < 240)
    (hc : snd3B b c = true) (hd : contB d = true) (t : Bytes) :
    utf8Lossy (b :: c :: d :: t) = b :: c :: d :: utf8Lossy t := by
  rw [utf8Lossy.eq_def]
  simp only []
  rw [if_neg (by omega), if_neg (by omega), if_neg (by omega), if_pos hb2]
  simp [hc, hd]

theorem utf8Lossy_fourByte (b c d e : Nat) (hb1 : 240 ≤ b) (hb2 : b < 245)
    (hc : snd4B b c = true) (hd : contB d = true) (he : contB e = true)
    (t : Bytes) :
    utf8Lossy (b :: c :: d :: e :: t) = b :: c :: d :: e :: utf8Lossy t := by
  rw [utf8Lossy.eq_def]
  simp only []
  rw [if_neg (by omega), if_neg (by omega), if_neg (by omega), if_neg (by omega),
    if_pos hb2]
  simp [hc, hd, he]

theorem utf8Lossy_validChar (c : Nat) (hc : ValidScalar c) (tail : Bytes) :
    utf8Lossy (utf8EncodeChar c ++ tail) = utf8EncodeChar c ++ utf8Lossy tail := by
  obtain ⟨hlt, hsurr⟩ := hc
  by_cases h1 : c < 128
  · rw [utf8EncodeChar, if_pos h1]
    simpa using utf8Lossy_ascii_cons c h1 tail
  · by_cases h2 : c < 2048
    · have he : utf8EncodeChar c = [192 + c / 64, 128 + c % 64] := by
        rw [utf8EncodeChar, if_neg h1, if_pos h2]
      have hdg : 2 ≤ c / 64 := Nat.le_div_iff_mul_le (by omega) |>.mpr (by omega)
      have hdl : c / 64 < 32 := Nat.div_lt_iff_lt_mul (by omega) |>.mpr (by omega)
      have hcont : contB (128 + c % 64) = true := by
        have : c % 64 < 64 := Nat.mod_lt _ (by omega)
        simp [contB]; omega
      rw [he, List.cons_append, List.cons_append, List.nil_append]
      exact utf8Lossy_twoByte _ _ (by omega) (by omega) hcont tail
    · by_cases h3 : c < 65536
      · have he : utf8EncodeChar c = [224 + c / 4096, 128 + c / 64 % 64, 128 + c % 64] := by
          rw [utf8EncodeChar, if_neg h1, if_neg h2, if_pos h3]
        have hd : c / 4096 < 16 := Nat.div_lt_iff_lt_mul (by omega) |>.mpr (by omega)
        have hsnd : snd3B (224 + c / 4096) (128 + c / 64 % 64) = true := by
          have hm : c / 64 % 64 < 64 := Nat.mod_lt _ (by omega)
          by_cases hz : c / 4096 = 0
          · -- lead byte 0xE0: c in [0x800, 0xFFF], second byte in [0xA0, 0xBF]
            have hc12 : c < 4096 := by
              by_contra hcon
              have : 1 ≤ c / 4096 := Nat.le_div_iff_mul_le (by omega) |>.mpr (by omega)
              omega
            have h32 : 32 ≤ c / 64 := Nat.le_div_iff_mul_le (by omega) |>.mpr (by omega)
            have h64 : c / 64 < 64 := Nat.div_lt_iff_lt_mul (by omega) |>.mpr (by omega)
            have hmx : c / 64 % 64 = c / 64 := Nat.mod_eq_of_lt h64
            simp [snd3B, hz]
            omega
          · by_cases hed : c / 4096 = 13
            · -- lead byte 0xED: c in [0xD000, 0xD7FF], second byte in [0x80, 0x9F]
              have hcl : c < 55296 := by
                rcases Nat.lt_or_ge c 55296 with hlt2 | hge
                · exact hlt2
                · exfalso
                  have h57 : c ≤ 57343 := by
                    have := Nat.div_lt_iff_lt_mul (show 0 < 4096 by omega) |>.mp
                      (show c / 4096 < 14 by omega)
                    omega
                  exact hsurr ⟨hge, h57⟩
              have hcg : 53248 ≤ c := by
                have := Nat.div_mul_le_self c 4096
                omega
              have hdiv : c / 64 < 864 := Nat.div_lt_iff_lt_mul (by omega) |>.mpr (by omega)
              have hdivg : 832 ≤ c / 64 := Nat.le_div_iff_mul_le (by omega) |>.mpr (by omega)
              have hmod : c / 64 % 64 < 32 := by omega
              simp [snd3B, hed]
              omega
            · have hne : ¬(224 + c / 4096 = 224) := by omega
              have hne2 : ¬(224 + c / 4096 = 237) := by omega
              simp [snd3B, hne, hne2, contB]
              omega
        have hcont : contB (128 + c % 64) = true := by
          have : c % 64 < 64 := Nat.mod_lt _ (by omega)
          simp [contB]; omega
        rw [he]
        simp only [List.cons_append, List.nil_append]
        exact utf8Lossy_threeByte _ _ _ (by omega) (by omega) hsnd hcont tail
      · have he : utf8EncodeChar c =
            [240 + c / 262144, 128 + c / 4096 % 64, 128 + c / 64 % 64, 128 + c % 64] := by
          rw [utf8EncodeChar, if_neg h1, if_neg h2, if_neg h3]
        have hd : c / 262144 < 5 := Nat.div_lt_iff_lt_mul (by omega) |>.mpr (by omega)
        have hsnd : snd4B (240 + c / 262144) (128 + c / 4096 % 64) = true := by
          have hm : c / 4096 % 64 < 64 := Nat.mod_lt _ (by omega)
          by_cases hz : c / 262144 = 0
          · -- lead byte 0xF0: c in [0x10000, 0x3FFFF], second in [0x90, 0xBF]
            have hc1 : c < 262144 := by
              by_contra hcon
              have : 1 ≤ c / 262144 := Nat.le_div_iff_mul_le (by omega) |>.mpr (by omega)
              omega
            have hg : 16 ≤ c / 4096 := Nat.le_div_iff_mul_le (by omega) |>.mpr (by omega)
            have hl : c / 4096 < 64 := Nat.div_lt_iff_lt_mul (by omega) |>.mpr (by omega)
            have hmx : c / 4096 % 64 = c / 4096 := Nat.mod_eq_of_lt hl
            simp [snd4B, hz]
            omega
          · by_cases hf4 : c / 262144 = 4
            · -- lead byte 0xF4: c in [0x100000, 0x10FFFF], second in [0x80, 0x8F]
              have hcg : 1048576 ≤ c := by
                have := Nat.div_mul_le_self c 262144
                omega
              have hg : 256 ≤ c / 4096 := Nat.le_div_iff_mul_le (by omega) |>.mpr (by omega)
              have hl : c / 4096 < 272 := Nat.div_lt_iff_lt_mul (by omega) |>.mpr (by omega)
              have : c / 4096 % 64 < 16 := by omega
              simp [snd4B, hf4]
              omega
            · have hne : ¬(240 + c / 262144 = 240) := by omega
              have hne2 : ¬(240 + c / 262144 = 244) := by omega
              simp [snd4B, hne, hne2, contB]
              omega
        have hcont3 : contB (128 + c / 64 % 64) = true := by
          have : c / 64 % 64 < 64 := Nat.mod_lt _ (by omega)
          simp [contB]; omega
        have hcont4 : contB (128 + c % 64) = true := by
          have : c % 64 < 64 := Nat.mod_lt _ (by omega)
          simp [contB]; omega
        rw [he]
        simp only [List.cons_append, List.nil_append]
        exact utf8Lossy_fourByte _ _ _ _ (by omega) (by omega) hsnd hcont3 hcont4 tail

theorem utf8Lossy_valid_append (cs : List Nat) (h : ∀ c ∈ cs, ValidScalar c)
    (tail : Bytes) :
    utf8Lossy (utf8Encode cs ++ tail) = utf8Encode cs ++ utf8Lossy tail := by
  induction cs with
  | nil => rfl
  | cons a as ih =>
    have ha : ValidScalar a := h a (List.mem_cons_self a as)
    have h' : ∀ c ∈ as, ValidScalar c := fun c hc => h c (List.mem_cons_of_mem a hc)
    rw [utf8Encode] at *
    simp only [List.map_cons, List.flatten_cons, List.append_assoc]
    rw [utf8Lossy_validChar a ha, ih h']

theorem utf8Lossy_valid (cs : List Nat) (h : ∀ c ∈ cs, ValidScalar c) :
    utf8Lossy (utf8Encode cs) = utf8Encode cs := by
  have := utf8Lossy_valid_append cs h []
  simpa [utf8Lossy] using this

/-- ASCII byte lists encode to themselves. -/
theorem utf8Encode_ascii (l : Bytes) (h : ∀ b ∈ l, b < 128) :
    utf8Encode l = l := by
  induction l with
  | nil => rfl
  | cons a as ih =>
    have ha : a < 128 := h a (List.mem_cons_self a as)
    have h' : ∀ b ∈ as, b < 128 := fun b hb => h b (List.mem_cons_of_mem a hb)
    rw [utf8Encode] at *
    simp only [List.map_cons, List.flatten_cons, ih h']
    rw [utf8EncodeChar, if_pos ha]
    rfl

/-! ### SHA-1

The repository's `Hasher` component (`create_hash` in `src/hasher.rs`,
not among the provided sources) and the `sha1` crate used by
`GitObject::to_raw` both compute the 160-bit SHA-1 digest of a byte
buffer.  Machine words are `Nat` reduced modulo `2^32` explicitly. -/

/-- Reduce to a 32-bit word. -/
def w32 (n : Nat) : Nat := n % 4294967296

/-- Rotate a 32-bit word left by `s` bits (for `n < 2^32`). -/
def rotl (s n : Nat) : Nat := n * 2 ^ s % 4294967296 + n / 2 ^ (32 - s)

/-- SHA-1 round function. -/
def sha1F (t b c d : Nat) : Nat :=
  if t < 20 then b &&& c ||| (4294967295 - b) &&& d
  else if t < 40 then b ^^^ c ^^^ d
  else if t < 60 then b &&& c ||| b &&& d ||| c &&& d
  else b ^^^ c ^^^ d

/-- SHA-1 round constants. -/
def sha1K (t : Nat) : Nat :=
  if t < 20 then 1518500249
  else if t < 40 then 1859775393
  else if t < 60 then 2400959708
  else 3395469782

/-- Big-endian 4-byte rendering of a 32-bit word. -/
def be32 (n : Nat) : Bytes :=
  [n / 16777216 % 256, n / 65536 % 256, n / 256 % 256, n % 256]

/-- Big-endian 8-byte rendering of a 64-bit value. -/
def be64 (n : Nat) : Bytes :=
  [n / 72057594037927936 % 256, n / 281474976710656 % 256,
   n / 1099511627776 % 256, n / 4294967296 % 256,
   n / 16777216 % 256, n / 65536 % 256, n / 256 % 256, n % 256]

/-- SHA-1 message padding: a `0x80` byte, zeros to reach 56 mod 64, and
the 64-bit big-endian bit length. -/
def sha1Pad (msg : Bytes) : Bytes :=
  msg ++ 128 :: List.replicate ((119 - msg.length % 64) % 64) 0
    ++ be64 (8 * msg.length)

/-- Big-endian 32-bit words of a byte string. -/
def toWords : Bytes → List Nat
  | a :: b :: c :: d :: rest => (a * 16777216 + b * 65536 + c * 256 + d) :: toWords rest
  | _ => []

/-- Split into 64-byte blocks: fuel-indexed recursion (structural, so
that concrete inputs evaluate inside the kernel); the input's length is
always enough fuel since every step drops 64 bytes. -/
def chunks64Aux (fuel : Nat) (l : Bytes) : List Bytes :=
  match fuel with
  | 0 => []
  | fuel + 1 =>
    if l.length = 0 then [] else l.take 64 :: chunks64Aux fuel (l.drop 64)

/-- Split into 64-byte blocks. -/
def chunks64 (l : Bytes) : List Bytes := chunks64Aux l.length l

/-- Extend a 16-word block schedule up to 80 words. -/
def sha1Sched (w : List Nat) : Nat → List Nat
  | 0 => w
  | n + 1 =>
    sha1Sched (w ++ [rotl 1 (w.getD (w.length - 3) 0 ^^^ w.getD (w.length - 8) 0
      ^^^ w.getD (w.length - 14) 0 ^^^ w.getD (w.length - 16) 0)]) n

/-- One SHA-1 round step on the five-word state. -/
def sha1Round (st : Nat × Nat × Nat × Nat × Nat) (tw : Nat × Nat) :
    Nat × Nat × Nat × Nat × Nat :=
  let (a, b, c, d, e) := st
  let (t, wt) := tw
  (w32 (rotl 5 a + sha1F t b c d + e + sha1K t + wt), a, rotl 30 b, c, d)

/-- Compress one 64-byte block into the running state. -/
def sha1Block (h : Nat × Nat × Nat × Nat × Nat) (block : Bytes) :
    Nat × Nat × Nat × Nat × Nat :=
  let ws := sha1Sched (toWords block) 64
  let (a, b, c, d, e) := ((List.range 80).zip ws).foldl sha1Round h
  (w32 (h.1 + a), w32 (h.2.1 + b), w32 (h.2.2.1 + c),
   w32 (h.2.2.2.1 + d), w32 (h.2.2.2.2 + e))

/-- SHA-1 digest (20 bytes) of a byte string. -/
def sha1 (msg : Bytes) : Bytes :=
  let st := (chunks64 (sha1Pad msg)).foldl sha1Block
    (1732584193, 4023233417, 2562383102, 271733878, 3285377520)
  be32 st.1 ++ be32 st.2.1 ++ be32 st.2.2.1 ++ be32 st.2.2.2.1 ++ be32 st.2.2.2.2

/-- Modelled from the spec: `create_hash` lives in `src/hasher.rs`, which
is not among the provided sources.  Per §4.1 the Hasher "computes a
160-bit digest over a byte buffer" with the collision behavior "of the
chosen 160-bit cryptographic hash function"; the `GitObject::to_raw`
path visible in `src/git_object.rs` uses the `sha1` crate, so the chosen
function is SHA-1. -/
def createHash (bs : Bytes) : Bytes := sha1 bs

/-- The SHA-1 digest always has 20 bytes. -/
theorem sha1_length (msg : Bytes) : (sha1 msg).length = 20 := by
  unfold sha1
  simp [be32]

/-! ### Compressor

Modelled from the spec: the `Compressor` component (`src/compressor.rs`,
not among the provided sources; the `GitObject` path uses the `flate2`
zlib codec) is per §4.2 "a symmetric byte-stream codec
(compress/decompress) ... forming an exact round-trip
(`decompress(compress(x)) == x` for all x)" at a single fixed level.
Only that round-trip contract matters to the claims below, so the codec
is modelled as the identity codec, the simplest codec satisfying §4.2. -/

def compress (bs : Bytes) : Bytes := bs

/-- Modelled from the spec: see `compress`.  Decompression of data
produced by `compress` always succeeds and restores the input. -/
def decompress (bs : Bytes) : PResult Bytes := .ok bs

/-! ### Constants (`src/constants.rs`, not among the provided sources)

Modelled from the spec: §6 describes "a root storage directory
containing 256 possible two-hex-character shard subdirectories" and §4.5
a "storage root's own metadata directory" skipped by name; the concrete
path constants live in `src/constants.rs`, which is not among the
provided sources, so the usual git names are used.  No theorem below
depends on the concrete values. -/

def gitBaseDir : Bytes := ascii (".git")

def gitObjectsDir : Bytes := ascii (".git/objects")

/-! ### `GitObject` (`src/git_object.rs`) -/

/-- `GIT_OBJECT_TYPE_BLOB` -/
def blobTag : Bytes := ascii ("blob")

/-- `GIT_OBJECT_TYPE_TREE` -/
def treeTag : Bytes := ascii ("tree")

/-- The `GitObject` enum: `Blob(String)` or `Tree(String)`.  The carried
`String`'s bytes (always valid UTF-8 in Rust) are the `content` field. -/
inductive GitObj where
  | blob (content : Bytes)
  | tree (content : Bytes)
deriving DecidableEq

/-- `GitObject::object_type` (returned string, as bytes). -/
def GitObj.objectType : GitObj → Bytes
  | .blob _ => blobTag
  | .tree _ => treeTag

/-- The carried content string's bytes. -/
def GitObj.content : GitObj → Bytes
  | .blob c => c
  | .tree c => c

/-- `GitObject::new(object_type, content_string)` (git_object.rs:27). -/
def GitObj.new (objectType : Bytes) (contentString : Bytes) : PResult GitObj :=
  if objectType = blobTag then .ok (.blob contentString)
  else if objectType = treeTag then .ok (.tree contentString)
  else .err ("Invalid object type")

/-- `GitObject::from_bytes` (git_object.rs:39): decompress, lossily
convert to a string, split at the first space to read the type, split
the remainder at the first NUL to discard the declared length, and build
the object. -/
def GitObj.fromBytes (bytes : Bytes) : PResult GitObj :=
  match decompress bytes with
  | .err e => .err e
  | .panicked => .panicked
  | .ok decompressed =>
    let contentString := utf8Lossy decompressed
    match splitOnce 32 contentString with
    | none => .err ("Failed to read object type")
    | some (objectType, rest) =>
      match splitOnce 0 rest with
      | none => .err ("Failed to read object length")
      | some (_, contentString2) => GitObj.new objectType contentString2

/-- `GitObject::to_raw` (git_object.rs:92): frame the content as
`"<type> <len>\0" ++ content`, SHA-1 it, hex the hash, compress the
framed bytes.  Returns `(hash, compressed_data)`. -/
def GitObj.toRaw (o : GitObj) : Bytes × Bytes :=
  let header := o.objectType ++ [32] ++ decimalAscii o.content.length ++ [0]
  let content := header ++ o.content
  (hexEncode (sha1 content), compress content)

/-! ### Filesystem state and the write/read paths -/

/-- Filesystem state: existing directories plus files with contents.
Environmental failures (permissions, I/O errors) are not modelled; the
parents of the paths in `dirs` are assumed present, matching a store
whose root was initialized before use (§6). -/
structure FState where
  dirs : List Bytes
  files : List (Bytes × Bytes)
deriving DecidableEq

/-- `fs::create_dir`: errors if the path already exists. -/
def FState.createDir (fs : FState) (p : Bytes) : PResult FState :=
  if p ∈ fs.dirs then .err ("File exists")
  else .ok ⟨p :: fs.dirs, fs.files⟩

/-- `fs::metadata(p).is_ok()`: does any entry exist at the path? -/
def FState.hasEntry (fs : FState) (p : Bytes) : Bool :=
  decide (p ∈ fs.dirs) || fs.files.any (fun e => e.1 == p)

/-- `fs::write`: create or overwrite a file. -/
def FState.writeFile (fs : FState) (p : Bytes) (content : Bytes) : FState :=
  ⟨fs.dirs, (p, content) :: fs.files.filter (fun e => e.1 != p)⟩

/-- Content of the file at a path, if present. -/
def FState.fileAt (fs : FState) (p : Bytes) : Option Bytes :=
  (fs.files.find? (fun e => e.1 == p)).map (fun e => e.2)

/-- Names of the direct children files of a directory, in directory
iteration order (modelled as the order of the `files` list). -/
def FState.dirNames (fs : FState) (d : Bytes) : List Bytes :=
  fs.files.filterMap (fun e =>
    if (d ++ [47]).isPrefixOf e.1 ∧ (47 : Nat) ∉ e.1.drop (d.length + 1)
    then some (e.1.drop (d.length + 1)) else none)

/-- `GitObject::write_to_fs` (git_object.rs:113): encode via `to_raw`,
then `fs::create_dir` the shard directory *unconditionally* and write
the object file.  Returns the hex hash. -/
def GitObj.writeToFs (o : GitObj) (fs : FState) : PResult (Bytes × FState) :=
  let (hash, compressedData) := o.toRaw
  let dirPath := gitObjectsDir ++ [47] ++ hash.take 2
  match fs.createDir dirPath with
  | .err e => .err e
  | .panicked => .panicked
  | .ok fs1 =>
    let objectPath := dirPath ++ [47] ++ hash.drop 2
    .ok (hash, fs1.writeFile objectPath compressedData)

/-- `FsUtils::write_to_fs` (fs_utils.rs:43): like
`GitObject::write_to_fs` but creates the shard directory only when
`fs::metadata` reports nothing at its path. -/
def FsUtils.writeToFs (o : GitObj) (fs : FState) : PResult (Bytes × FState) :=
  let (hash, compressedData) := o.toRaw
  let dirPath := gitObjectsDir ++ [47] ++ hash.take 2
  let step : PResult FState :=
    if fs.hasEntry dirPath then .ok fs else fs.createDir dirPath
  match step with
  | .err e => .err e
  | .panicked => .panicked
  | .ok fs1 =>
    let objectPath := dirPath ++ [47] ++ hash.drop 2
    .ok (hash, fs1.writeFile objectPath compressedData)

/-- The framed object bytes built by `FsUtils::write_object`
(fs_utils.rs:105-106): `"<object_type> <len>\0" ++ content_bytes`. -/
def FsUtils.writeObjectBytes (objectType : Bytes) (contentBytes : Bytes) : Bytes :=
  objectType ++ [32] ++ decimalAscii contentBytes.length ++ [0] ++ contentBytes

/-- The raw 20-byte hash computed by `FsUtils::write_object`
(fs_utils.rs:109). -/
def FsUtils.writeObjectHashRaw (objectType : Bytes) (contentBytes : Bytes) : Bytes :=
  createHash (FsUtils.writeObjectBytes objectType contentBytes)

/-- The compressed object bytes produced by `FsUtils::write_object`
(fs_utils.rs:113). -/
def FsUtils.writeObjectCompressed (objectType : Bytes) (contentBytes : Bytes) : Bytes :=
  compress (FsUtils.writeObjectBytes objectType contentBytes)

/-- `FsUtils::write_object` (fs_utils.rs:104): frame, hash, compress,
create the shard directory only if absent, write the file, and return
the *raw* hash bytes. -/
def FsUtils.writeObject (objectType : Bytes) (contentBytes : Bytes) (fs : FState) :
    PResult (Bytes × FState) :=
  let hash := FsUtils.writeObjectHashRaw objectType contentBytes
  let hashHex := hexEncode hash
  let dirPath := gitObjectsDir ++ [47] ++ hashHex.take 2
  let step : PResult FState :=
    if fs.hasEntry dirPath then .ok fs else fs.createDir dirPath
  match step with
  | .err e => .err e
  | .panicked => .panicked
  | .ok fs1 =>
    let objectPath := dirPath ++ [47] ++ hashHex.drop 2
    .ok (hash, fs1.writeFile objectPath
      (FsUtils.writeObjectCompressed objectType contentBytes))

/-! ### Hash-prefix reads

Rust `&str` inputs are modelled as lists of Unicode scalar values so
that `str::len` (UTF-8 byte count) and byte-offset slicing (`&s[..2]`,
which panics off a character boundary) keep their Rust meaning. -/

/-- Split a string (as scalar values) at a byte offset: `none` when the
offset is not a character boundary or exceeds the string (Rust slicing
panics there). -/
def splitAtByte (n : Nat) (cs : List Nat) : Option (List Nat × List Nat) :=
  if n = 0 then some ([], cs)
  else
    match cs with
    | [] => none
    | c :: rest =>
      if (utf8EncodeChar c).length ≤ n then
        (splitAtByte (n - (utf8EncodeChar c).length) rest).map
          (fun p => (c :: p.1, p.2))
      else none

/-- `FsUtils::read_bytes_for_hash` (fs_utils.rs:15): reject byte lengths
below 6, slice off the first two bytes to name the shard directory
(panicking off a character boundary, as `&hash[..2]` does), list the
directory, take the first entry whose name starts with the remaining
characters, and read that file. -/
def FsUtils.readBytesForHash (hash : List Nat) (fs : FState) : PResult Bytes :=
  if utf8Len hash < 6 then .err ("Invalid hash")
  else
    match splitAtByte 2 hash with
    | none => .panicked
    | some (pre, suf) =>
      let dirPath := gitObjectsDir ++ [47] ++ utf8Encode pre
      if dirPath ∈ fs.dirs then
        match (fs.dirNames dirPath).find?
            (fun name => (utf8Encode suf).isPrefixOf name) with
        | none => .err ("Invalid hash")
        | some name =>
          match fs.fileAt (dirPath ++ [47] ++ name) with
          | some bytes => .ok bytes
          | none => .err ("No such file or directory")
      else .err ("No such file or directory")

/-- `GitObject::from_hash` (git_object.rs:63): the same lookup (with its
own error message) followed by `GitObject::from_path`, i.e. reading the
file and decoding it with `GitObject::from_bytes`. -/
def GitObj.fromHash (hash : List Nat) (fs : FState) : PResult GitObj :=
  if utf8Len hash < 6 then .err ("Invalid tree hash")
  else
    match splitAtByte 2 hash with
    | none => .panicked
    | some (pre, suf) =>
      let dirPath := gitObjectsDir ++ [47] ++ utf8Encode pre
      if dirPath ∈ fs.dirs then
        match (fs.dirNames dirPath).find?
            (fun name => (utf8Encode suf).isPrefixOf name) with
        | none => .err ("Invalid tree hash")
        | some name =>
          match fs.fileAt (dirPath ++ [47] ++ name) with
          | some bytes => GitObj.fromBytes bytes
          | none => .err ("No such file or directory")
      else .err ("No such file or directory")

/-! ### Tree lines (`src/git_object/tree_line.rs`) -/

/-- `TreeLine`: mode and path as (lossily converted) strings, hash
hex-encoded, all as byte strings. -/
structure TreeLine where
  mode : Bytes
  path : Bytes
  hash : Bytes
deriving DecidableEq

/-- The loop of `TreeLines::from_bytes` (tree_line.rs:34-59): find the
space (else `InvalidTreeLine`), find the NUL (else `InvalidTreeLine`),
slice 20 hash bytes — the source does `&rem[..20]` with no length
check, which panics when fewer than 20 bytes remain — push the line, and
stop only when nothing remains. -/
def treeLinesLoop (rem : Bytes) (lines : List TreeLine) : PResult (List TreeLine) :=
  match h1 : splitOnce 32 rem with
  | none => .err ("Invalid tree line")
  | some (modeB, rest1) =>
    match h2 : splitOnce 0 rest1 with
    | none => .err ("Invalid tree line")
    | some (pathB, rest2) =>
      if rest2.length < 20 then .panicked
      else
        let rest3 := rest2.drop 20
        let lines2 := lines ++
          [⟨utf8Lossy modeB, utf8Lossy pathB, hexEncode (rest2.take 20)⟩]
        if rest3.length = 0 then .ok lines2
        else treeLinesLoop rest3 lines2
termination_by rem.length
decreasing_by
  have e1 := splitOnce_lengths 32 rem _ _ h1
  have e2 := splitOnce_lengths 0 rest1 _ _ h2
  simp at *
  omega

/-- `TreeLines::from_bytes` (tree_line.rs:30): run the loop starting
from the whole payload with no lines accumulated. -/
def TreeLines.fromBytes (bytes : Bytes) : PResult (List TreeLine) :=
  treeLinesLoop bytes []

/-- `TreeLines::to_bytes` (tree_line.rs:64) is `todo!()`: it panics
unconditionally for every receiver. -/
def TreeLines.toBytes (_lines : List TreeLine) : PResult Bytes := .panicked

/-! ### `FsUtils::write_tree` (fs_utils.rs:57)

A directory subtree is modelled as a value of `FsEntry`; names are the
UTF-8 bytes of the entry names (the source skips entries whose names are
not valid Unicode, so names are represented as already-valid strings).
`write_tree` persists each blob/tree as it goes; the payload bytes and
hashes it computes do not depend on the filesystem state, so the model
computes them as pure values. -/

/-- Modelled from the spec: `TREE_LINE_MODE_FILE` is declared in a part
of `src/git_object/tree_line.rs` not among the provided sources; §8
shows the file mode tag as `100644`. -/
def fileModeTag : Bytes := ascii ("100644")

/-- Modelled from the spec: `TREE_LINE_MODE_FOLDER` is declared in a
part of `src/git_object/tree_line.rs` not among the provided sources;
§4.3 fixes it as the ASCII "folder" mode tag, for which the git tree
format uses `40000`.  No theorem depends on the concrete digits. -/
def folderModeTag : Bytes := ascii ("40000")

/-- A filesystem subtree: a file with contents, or a directory with
named entries. -/
inductive FsEntry where
  | file (content : Bytes)
  | dir (entries : List (Bytes × FsEntry))

def FsEntry.isDir : FsEntry → Bool
  | .file _ => false
  | .dir _ => true

/-- Byte-wise lexicographic order on names, the order of
`entries.sort_by_key(|e| e.path())` within one directory. -/
def bytesLe : Bytes → Bytes → Bool
  | [], _ => true
  | _ :: _, [] => false
  | a :: as, b :: bs => if a < b then true else if b < a then false else bytesLe as bs

def insertEntry (x : Bytes × FsEntry) : List (Bytes × FsEntry) → List (Bytes × FsEntry)
  | [] => [x]
  | y :: ys => if bytesLe x.1 y.1 then x :: y :: ys else y :: insertEntry x ys

/-- The `sort_by_key` of fs_utils.rs:62, as an insertion sort. -/
def sortEntries (es : List (Bytes × FsEntry)) : List (Bytes × FsEntry) :=
  es.foldr insertEntry []

theorem sizeOf_insertEntry (x : Bytes × FsEntry) (l : List (Bytes × FsEntry)) :
    sizeOf (insertEntry x l) = 1 + sizeOf x + sizeOf l := by
  induction l with
  | nil => simp [insertEntry]
  | cons y ys ih =>
    rw [insertEntry]
    by_cases h : bytesLe x.1 y.1
    · simp [h]
    · simp [h, ih]
      omega

theorem sizeOf_sortEntries (es : List (Bytes × FsEntry)) :
    sizeOf (sortEntries es) = sizeOf es := by
  induction es with
  | nil => rfl
  | cons x xs ih =>
    show sizeOf (insertEntry x (sortEntries xs)) = _
    rw [sizeOf_insertEntry, ih]
    simp

mutual

/-- The 20 raw hash bytes appended for one directory entry by
`FsUtils::write_tree` (fs_utils.rs:85 and 94): the recursively written
tree's hash for a subdirectory, the written blob's hash for a file. -/
def entryTargetHash : Bytes × FsEntry → Bytes
  | (_, .file content) => FsUtils.writeObjectHashRaw blobTag content
  | (_, .dir entries) => FsUtils.writeObjectHashRaw treeTag (writeTreePayload entries)
termination_by p => sizeOf p

/-- The loop body of `FsUtils::write_tree` over the sorted entries:
skip the storage root's metadata directory, otherwise append
`"<mode> <name>\0"` and the entry's 20 raw hash bytes. -/
def writeTreeLoop : List (Bytes × FsEntry) → Bytes
  | [] => []
  | x :: rest =>
    (if x.1 = gitBaseDir then []
     else (if x.2.isDir then folderModeTag else fileModeTag)
       ++ [32] ++ x.1 ++ [0] ++ entryTargetHash x)
    ++ writeTreeLoop rest
termination_by l => sizeOf l

/-- The `tree_bytes` accumulated by `FsUtils::write_tree` for one
directory's entries (the payload passed to `write_object`). -/
def writeTreePayload (entries : List (Bytes × FsEntry)) : Bytes :=
  writeTreeLoop (sortEntries entries)
termination_by 1 + sizeOf entries
decreasing_by rw [sizeOf_sortEntries]; omega

end

/-! ### Concrete stores used as inputs of witnesses and counterexamples -/

/-- A freshly initialized store: the base and objects directories exist,
no object has been written yet. -/
def initStore : FState := ⟨[ascii (".git"), gitObjectsDir], []⟩

/-- A store whose shard directory `aa` holds two objects with the common
name prefix `bbcc`: a 6-character lookup `aabbcc` is ambiguous here. -/
def twoMatchStore : FState :=
  ⟨[ascii (".git"), gitObjectsDir, gitObjectsDir ++ [47] ++ ascii ("aa")],
   [(gitObjectsDir ++ [47] ++ ascii ("aa/bbccdd"), [1]),
    (gitObjectsDir ++ [47] ++ ascii ("aa/bbccee"), [2])]⟩

/-- Running a write path twice with the same object: the state of the
first write feeds the second, surfacing its result. -/
def writeTwice (w : GitObj → FState → PResult (Bytes × FState)) (o : GitObj)
    (fs : FState) : PResult (Bytes × FState) :=
  match w o fs with
  | .ok (_, fs1) => w o fs1
  | .err e => .err e
  | .panicked => .panicked

/-- The header exactly as §3's invariant words it: ASCII type name, one
space, the decimal ASCII byte length of the payload, a single NUL. -/
def specHeader (t p : Bytes) : Bytes := t ++ [32] ++ decimalAscii p.length ++ [0]

/-! ### Shared framing lemmas -/

theorem blobTag_ascii : ∀ b ∈ blobTag, b < 128 := by decide

theorem treeTag_ascii : ∀ b ∈ treeTag, b < 128 := by decide

theorem blobTag_no_space : (32 : Nat) ∉ blobTag := by decide

theorem treeTag_no_space : (32 : Nat) ∉ treeTag := by decide

/-- What `GitObject::from_bytes` does to any compressed input whose
decompressed text splits as `tag ++ " " ++ mid ++ "\0" ++ p` with no
space in the tag and no NUL in `mid`: the declared-length field `mid` is
discarded unread and the object is built from the tag and `p`. -/
theorem fromBytes_frame (d tagB mid p : Bytes)
    (h : utf8Lossy d = tagB ++ 32 :: (mid ++ 0 :: p))
    (h1 : (32 : Nat) ∉ tagB) (h2 : (0 : Nat) ∉ mid) :
    GitObj.fromBytes (compress d) = GitObj.new tagB p := by
  show (match splitOnce 32 (utf8Lossy d) with
    | none => (PResult.err ("Failed to read object type") : PResult GitObj)
    | some (objectType, rest) =>
      match splitOnce 0 rest with
      | none => PResult.err ("Failed to read object length")
      | some (_, contentString2) => GitObj.new objectType contentString2)
    = GitObj.new tagB p
  rw [h, splitOnce_append_sep 32 tagB (mid ++ 0 :: p) h1]
  show (match splitOnce 0 (mid ++ 0 :: p) with
    | none => (PResult.err ("Failed to read object length") : PResult GitObj)
    | some (_, contentString2) => GitObj.new tagB contentString2)
    = GitObj.new tagB p
  rw [splitOnce_append_sep 0 mid p h2]

/-- The lossy conversion leaves the object framing of
`FsUtils::write_object` untouched whenever the type tag is ASCII and the
payload survives the conversion. -/
theorem utf8Lossy_objectBytes (t p : Bytes) (ht : ∀ b ∈ t, b < 128)
    (hp : utf8Lossy p = p) :
    utf8Lossy (FsUtils.writeObjectBytes t p) =
      t ++ 32 :: (decimalAscii p.length ++ 0 :: p) := by
  have hall : ∀ b ∈ t ++ [32] ++ decimalAscii p.length ++ [0], b < 128 := by
    intro b hb
    simp only [List.mem_append, List.mem_singleton] at hb
    rcases hb with ((hb | hb) | hb) | hb
    · exact ht b hb
    · omega
    · exact decimalAscii_is_ascii _ b hb
    · omega
  have e : FsUtils.writeObjectBytes t p =
      (t ++ [32] ++ decimalAscii p.length ++ [0]) ++ p := by
    simp [FsUtils.writeObjectBytes, List.append_assoc]
  rw [e, utf8Lossy_ascii_append _ _ hall, hp]
  simp [List.append_assoc]

theorem GitObj.new_blob (p : Bytes) : GitObj.new blobTag p = .ok (.blob p) := by
  rw [GitObj.new, if_pos rfl]

theorem GitObj.new_tree (p : Bytes) : GitObj.new treeTag p = .ok (.tree p) := by
  rw [GitObj.new, if_neg (by decide), if_pos rfl]

set_option maxRecDepth 40000

/-! ### The claims -/

/-- C1, counterexample: the round-trip law fails for the non-UTF-8
payload `[0xFF]`: `GitObject::from_bytes` converts the decompressed
bytes with `String::from_utf8_lossy`, so the byte `0xFF` comes back as
the replacement character's bytes `EF BF BD`, not as itself. -/
theorem c1_nonUtf8_payload_cx :
    GitObj.fromBytes (compress (FsUtils.writeObjectBytes blobTag [255]))
      = PResult.ok (GitObj.blob [239, 191, 189]) ∧
    GitObj.fromBytes (compress (FsUtils.writeObjectBytes blobTag [255]))
      ≠ PResult.ok (GitObj.blob [255]) := by
  constructor <;> decide

/-- C1, amended: for both type tags and every payload that is the UTF-8
encoding of a sequence of Unicode scalar values (i.e. every valid-UTF-8
payload), encoding with the `"<type> <len>\0"` framing and compressing,
then decoding with `GitObject::from_bytes`, recovers exactly the original
type tag and payload bytes. -/
theorem c1_roundTrip_validUtf8 (cs : List Nat) (h : ∀ c ∈ cs, ValidScalar c) :
    GitObj.fromBytes (compress (FsUtils.writeObjectBytes blobTag (utf8Encode cs)))
      = PResult.ok (GitObj.blob (utf8Encode cs)) ∧
    GitObj.fromBytes (compress (FsUtils.writeObjectBytes treeTag (utf8Encode cs)))
      = PResult.ok (GitObj.tree (utf8Encode cs)) := by
  have hp : utf8Lossy (utf8Encode cs) = utf8Encode cs := utf8Lossy_valid cs h
  constructor
  · rw [fromBytes_frame _ blobTag (decimalAscii (utf8Encode cs).length) (utf8Encode cs)
      (utf8Lossy_objectBytes blobTag _ blobTag_ascii hp) blobTag_no_space
      (decimalAscii_no_nul _), GitObj.new_blob]
  · rw [fromBytes_frame _ treeTag (decimalAscii (utf8Encode cs).length) (utf8Encode cs)
      (utf8Lossy_objectBytes treeTag _ treeTag_ascii hp) treeTag_no_space
      (decimalAscii_no_nul _), GitObj.new_tree]

/-- C1, witness: the round trip at the concrete payload "hi". -/
theorem c1_roundTrip_validUtf8_wit :
    GitObj.fromBytes (compress (FsUtils.writeObjectBytes blobTag (utf8Encode [104, 105])))
      = PResult.ok (GitObj.blob (utf8Encode [104, 105])) :=
  (c1_roundTrip_validUtf8 [104, 105] (by decide)).1

/-- C2: on the truncated tree payload `"100644 a\0" ++ [1, 2, 3]` (three
bytes where a 20-byte hash is expected), `TreeLines::from_bytes` panics
— the source slices `&rem[..20]` without a length check — instead of
returning the `InvalidTreeLine` error the spec promises. -/
theorem c2_truncated_tree_panics :
    TreeLines.fromBytes (ascii ("100644 a") ++ [0, 1, 2, 3]) = PResult.panicked := by
  rw [TreeLines.fromBytes]
  rw [treeLinesLoop]
  decide

/-- C8, counterexample: the decompressed bytes `"x \0y"` contain a space
and a later NUL, yet decoding does not succeed: `GitObject::new` rejects
the type tag `"x"`. -/
theorem c8_unknown_tag_cx :
    GitObj.fromBytes (compress [120, 32, 0, 121])
      = PResult.err ("Invalid object type") := by
  decide

/-- C8, amended: `GitObject::from_bytes` never validates the declared
length field: whenever the decompressed input's lossy conversion reads
`"blob "` (or `"tree "`) followed by any NUL-free filler and then a NUL,
decoding succeeds and returns everything after that first NUL as the
payload, whether or not the filler is the payload's true decimal length. -/
theorem c8_declared_length_ignored (d dt mid midt p pt : Bytes)
    (hb : utf8Lossy d = blobTag ++ 32 :: (mid ++ 0 :: p)) (hm : (0 : Nat) ∉ mid)
    (ht : utf8Lossy dt = treeTag ++ 32 :: (midt ++ 0 :: pt)) (hmt : (0 : Nat) ∉ midt) :
    GitObj.fromBytes (compress d) = PResult.ok (GitObj.blob p) ∧
    GitObj.fromBytes (compress dt) = PResult.ok (GitObj.tree pt) := by
  constructor
  · rw [fromBytes_frame d blobTag mid p hb blobTag_no_space hm, GitObj.new_blob]
  · rw [fromBytes_frame dt treeTag midt pt ht treeTag_no_space hmt, GitObj.new_tree]

/-- C8, witness: `"blob 999\0hi"` and `"tree 7\0xyz"` both decode
successfully although the declared lengths 999 and 7 are wrong. -/
theorem c8_declared_length_ignored_wit :
    GitObj.fromBytes (compress (ascii ("blob 999") ++ [0] ++ ascii ("hi")))
      = PResult.ok (GitObj.blob (ascii ("hi"))) ∧
    GitObj.fromBytes (compress (ascii ("tree 7") ++ [0] ++ ascii ("xyz")))
      = PResult.ok (GitObj.tree (ascii ("xyz"))) :=
  c8_declared_length_ignored _ _ (ascii ("999")) (ascii ("7")) (ascii ("hi"))
    (ascii ("xyz")) (by decide) (by decide) (by decide) (by decide)

/-- C9: decoding the empty tree payload fails with `InvalidTreeLine`
(the loop of `TreeLines::from_bytes` runs its body before checking for
remaining bytes), although the empty tree object itself can be encoded
and stored by `FsUtils::write_object`. -/
theorem c9_empty_tree_payload :
    TreeLines.fromBytes [] = PResult.err ("Invalid tree line") ∧
    (FsUtils.writeObject treeTag [] initStore).isOk = true := by
  constructor
  · rw [TreeLines.fromBytes, treeLinesLoop]
    decide
  · decide

/-- C5, counterexample: the source checks `hash.len() < 6`, which is the
UTF-8 *byte* length.  The two-character string `"€€"` (scalar values
`[0x20AC, 0x20AC]`, six bytes) has fewer than 6 characters, yet the
check passes and the function then panics slicing `&hash[..2]` in the
middle of a character — it neither returns `InvalidHash` nor stays away
from the filesystem path logic. -/
theorem c5_two_chars_panic_cx :
    ([8364, 8364] : List Nat).length < 6 ∧
    FsUtils.readBytesForHash [8364, 8364] initStore = PResult.panicked := by
  constructor <;> decide

/-- C5, amended: for every input string whose UTF-8 *byte* length is
below 6 (for ASCII hash prefixes this coincides with the character
count), both `FsUtils::read_bytes_for_hash` and `GitObject::from_hash`
fail with their invalid-hash error for every filesystem state — i.e.
before touching the filesystem. -/
theorem c5_short_hash_rejected (hash : List Nat) (fs : FState)
    (h : utf8Len hash < 6) :
    FsUtils.readBytesForHash hash fs = PResult.err ("Invalid hash") ∧
    GitObj.fromHash hash fs = PResult.err ("Invalid tree hash") := by
  constructor
  · unfold FsUtils.readBytesForHash
    rw [if_pos h]
  · unfold GitObj.fromHash
    rw [if_pos h]

/-- C5, witness: the 3-character, 3-byte prefix "abc" is rejected by
both read paths on the fresh store. -/
theorem c5_short_hash_rejected_wit :
    FsUtils.readBytesForHash (ascii ("abc")) initStore = PResult.err ("Invalid hash") ∧
    GitObj.fromHash (ascii ("abc")) initStore = PResult.err ("Invalid tree hash") :=
  c5_short_hash_rejected (ascii ("abc")) initStore (by decide)

/-- C4, counterexample: with two stored objects `aabbccdd…` (content
`[1]`) and `aabbccee…` (content `[2]`) both matching the 6-character
prefix `aabbcc`, `read_bytes_for_hash` does not fail: `.find` silently
returns the first match in directory-iteration order. -/
theorem c4_ambiguous_returns_first_cx :
    FsUtils.readBytesForHash (ascii ("aabbcc")) twoMatchStore = PResult.ok [1] ∧
    ((twoMatchStore.dirNames (gitObjectsDir ++ [47] ++ ascii ("aa"))).countP
      (fun nm => (ascii ("bbcc")).isPrefixOf nm)) = 2 := by
  constructor <;> decide

/-- C4, amended: for a well-formed prefix of byte length at least 6
whose shard directory exists, `read_bytes_for_hash` fails with
`InvalidHash` when *zero* directory entries match the remaining prefix;
when at least one matches it does not fail on ambiguity but returns the
content of the first matching entry in directory-iteration order. -/
theorem c4_prefix_match_semantics (hash : List Nat) (fs : FState)
    (pre suf : List Nat) (name : Bytes) (rest : List Bytes) (c : Bytes)
    (h6 : ¬ utf8Len hash < 6)
    (hsplit : splitAtByte 2 hash = some (pre, suf))
    (hdir : gitObjectsDir ++ [47] ++ utf8Encode pre ∈ fs.dirs) :
    ((∀ nm ∈ fs.dirNames (gitObjectsDir ++ [47] ++ utf8Encode pre),
        (utf8Encode suf).isPrefixOf nm = false) →
      FsUtils.readBytesForHash hash fs = PResult.err ("Invalid hash"))
    ∧ (fs.dirNames (gitObjectsDir ++ [47] ++ utf8Encode pre) = name :: rest →
      (utf8Encode suf).isPrefixOf name = true →
      fs.fileAt ((gitObjectsDir ++ [47] ++ utf8Encode pre) ++ [47] ++ name) = some c →
      FsUtils.readBytesForHash hash fs = PResult.ok c) := by
  unfold FsUtils.readBytesForHash
  rw [if_neg h6, hsplit]
  dsimp only
  constructor
  · intro hnone
    rw [if_pos hdir]
    rw [List.find?_eq_none.mpr (fun nm hm => by simp [hnone nm hm])]
  · intro hnames hpre hfile
    rw [if_pos hdir, hnames]
    rw [List.find?_cons_of_pos _ hpre]
    dsimp only
    rw [hfile]

/-- C4, witness: on the two-match store, the prefix `aazzzz` (shard
exists, no entry matches) fails with `InvalidHash`, while the ambiguous
prefix `aabbcc` returns the first entry's content. -/
theorem c4_prefix_match_semantics_wit :
    FsUtils.readBytesForHash (ascii ("aazzzz")) twoMatchStore = PResult.err ("Invalid hash") ∧
    FsUtils.readBytesForHash (ascii ("aabbcc")) twoMatchStore = PResult.ok [1] := by
  constructor
  · exact (c4_prefix_match_semantics (ascii ("aazzzz")) twoMatchStore
      (ascii ("aa")) (ascii ("zzzz")) [] [] []
      (by decide) (by decide) (by decide)).1 (by decide)
  · exact (c4_prefix_match_semantics (ascii ("aabbcc")) twoMatchStore
      (ascii ("aa")) (ascii ("bbcc")) (ascii ("bbccdd")) [ascii ("bbccee")] [1]
      (by decide) (by decide) (by decide)).2 (by decide) (by decide) (by decide)

theorem path_ne_child (d a b : Bytes) : d ++ 47 :: a ≠ d ++ 47 :: (a ++ 47 :: b) := by
  intro h
  have := congrArg List.length h
  simp only [List.length_append, List.length_cons] at this
  omega

theorem hasEntry_writeFile (fs : FState) (p q c : Bytes)
    (h : fs.hasEntry p = true) (hne : p ≠ q) :
    (fs.writeFile q c).hasEntry p = true := by
  unfold FState.hasEntry FState.writeFile at *
  simp only [List.any_eq_true, Bool.or_eq_true, decide_eq_true_eq, beq_iff_eq] at h ⊢
  rcases h with h | ⟨e, he, heq⟩
  · exact Or.inl h
  · right
    refine ⟨e, ?_, heq⟩
    simp only [List.mem_cons, List.mem_filter]
    right
    refine ⟨he, ?_⟩
    simp only [bne_iff_ne, ne_eq, heq]
    exact hne

theorem writeToFs_of_hasEntry (o : GitObj) (fs : FState)
    (h : fs.hasEntry (gitObjectsDir ++ 47 :: o.toRaw.1.take 2) = true) :
    FsUtils.writeToFs o fs = .ok (o.toRaw.1,
      fs.writeFile (gitObjectsDir ++ 47 :: (o.toRaw.1.take 2 ++ 47 :: o.toRaw.1.drop 2))
        o.toRaw.2) := by
  rcases hr : o.toRaw with ⟨hash, cd⟩
  rw [hr] at h
  simp only at h ⊢
  simp [FsUtils.writeToFs, hr, h]

theorem writeToFs_spec (o : GitObj) (fs : FState) :
    ∃ fs1, FsUtils.writeToFs o fs = .ok (o.toRaw.1, fs1) ∧
      fs1.hasEntry (gitObjectsDir ++ 47 :: o.toRaw.1.take 2) = true := by
  by_cases hE : fs.hasEntry (gitObjectsDir ++ 47 :: o.toRaw.1.take 2) = true
  · exact ⟨_, writeToFs_of_hasEntry o fs hE,
      hasEntry_writeFile _ _ _ _ hE (path_ne_child _ _ _)⟩
  · rcases hr : o.toRaw with ⟨hash, cd⟩
    rw [hr] at hE
    simp only at hE ⊢
    replace hE : fs.hasEntry (gitObjectsDir ++ 47 :: List.take 2 hash) = false :=
      eq_false_of_ne_true hE
    have hnd : gitObjectsDir ++ 47 :: List.take 2 hash ∉ fs.dirs := by
      intro hmem
      rw [FState.hasEntry] at hE
      simp at hE
      exact hE.1 hmem
    refine ⟨(FState.mk ((gitObjectsDir ++ 47 :: List.take 2 hash) :: fs.dirs)
        fs.files).writeFile
        (gitObjectsDir ++ 47 :: (List.take 2 hash ++ 47 :: List.drop 2 hash)) cd,
      ?_, ?_⟩
    · simp [FsUtils.writeToFs, hr, hE, FState.createDir, hnd]
    · apply hasEntry_writeFile _ _ _ _ _ (path_ne_child _ _ _)
      simp [FState.hasEntry]

theorem writeObject_of_hasEntry (t p : Bytes) (fs : FState)
    (h : fs.hasEntry (gitObjectsDir
      ++ 47 :: (hexEncode (FsUtils.writeObjectHashRaw t p)).take 2) = true) :
    FsUtils.writeObject t p fs = .ok (FsUtils.writeObjectHashRaw t p,
      fs.writeFile (gitObjectsDir
          ++ 47 :: ((hexEncode (FsUtils.writeObjectHashRaw t p)).take 2
            ++ 47 :: (hexEncode (FsUtils.writeObjectHashRaw t p)).drop 2))
        (FsUtils.writeObjectCompressed t p)) := by
  simp [FsUtils.writeObject, h]

theorem writeObject_spec (t p : Bytes) (fs : FState) :
    ∃ fs1, FsUtils.writeObject t p fs = .ok (FsUtils.writeObjectHashRaw t p, fs1) ∧
      fs1.hasEntry (gitObjectsDir
        ++ 47 :: (hexEncode (FsUtils.writeObjectHashRaw t p)).take 2) = true := by
  by_cases hE : fs.hasEntry (gitObjectsDir
      ++ 47 :: (hexEncode (FsUtils.writeObjectHashRaw t p)).take 2) = true
  · exact ⟨_, writeObject_of_hasEntry t p fs hE,
      hasEntry_writeFile _ _ _ _ hE (path_ne_child _ _ _)⟩
  · replace hE : fs.hasEntry (gitObjectsDir
        ++ 47 :: (hexEncode (FsUtils.writeObjectHashRaw t p)).take 2) = false :=
      eq_false_of_ne_true hE
    have hnd : gitObjectsDir
        ++ 47 :: (hexEncode (FsUtils.writeObjectHashRaw t p)).take 2 ∉ fs.dirs := by
      intro hmem
      rw [FState.hasEntry] at hE
      simp at hE
      exact hE.1 hmem
    refine ⟨(FState.mk ((gitObjectsDir
          ++ 47 :: (hexEncode (FsUtils.writeObjectHashRaw t p)).take 2) :: fs.dirs)
        fs.files).writeFile
        (gitObjectsDir ++ 47 :: ((hexEncode (FsUtils.writeObjectHashRaw t p)).take 2
          ++ 47 :: (hexEncode (FsUtils.writeObjectHashRaw t p)).drop 2))
        (FsUtils.writeObjectCompressed t p),
      ?_, ?_⟩
    · simp [FsUtils.writeObject, hE, FState.createDir, hnd]
    · apply hasEntry_writeFile _ _ _ _ _ (path_ne_child _ _ _)
      simp [FState.hasEntry]

/-- C3, counterexample: on a fresh store, `GitObject::write_to_fs`
succeeds once for the empty blob, but writing the same content a second
time errors: this path calls `fs::create_dir` unconditionally, and the
shard directory now exists. -/
theorem c3_unguarded_second_write_errs_cx :
    (GitObj.writeToFs (GitObj.blob []) initStore).isOk = true ∧
    writeTwice GitObj.writeToFs (GitObj.blob []) initStore
      = PResult.err ("File exists") := by
  constructor <;> decide

/-- C3, amended: the guarded store paths `FsUtils::write_to_fs` and
`FsUtils::write_object` (which create the shard directory only when
`fs::metadata` finds nothing) succeed twice in a row on the same content
from any state, producing the same hash both times; the claim fails for
the remaining write path, `GitObject::write_to_fs`, whose unconditional
`create_dir` makes the second write error. -/
theorem c3_guarded_writes_idempotent (o : GitObj) (t p : Bytes) (fs fsB : FState) :
    (∃ fs1 fs2, FsUtils.writeToFs o fs = .ok (o.toRaw.1, fs1) ∧
      FsUtils.writeToFs o fs1 = .ok (o.toRaw.1, fs2)) ∧
    (∃ fs1 fs2, FsUtils.writeObject t p fsB = .ok (FsUtils.writeObjectHashRaw t p, fs1) ∧
      FsUtils.writeObject t p fs1 = .ok (FsUtils.writeObjectHashRaw t p, fs2)) := by
  constructor
  · obtain ⟨fs1, h1, hE1⟩ := writeToFs_spec o fs
    exact ⟨fs1, _, h1, writeToFs_of_hasEntry o fs1 hE1⟩
  · obtain ⟨fs1, h1, hE1⟩ := writeObject_spec t p fsB
    exact ⟨fs1, _, h1, writeObject_of_hasEntry t p fs1 hE1⟩

/-- C6: in both encoding paths the stored hex hash is the SHA-1 digest
of `header ++ payload` with `header = "<type> <len>\0"` exactly as §3's
invariant words it (`specHeader`): `GitObject::to_raw` for any object,
and `FsUtils::write_object` for any type tag and payload bytes. -/
theorem c6_stored_hash_framing (o : GitObj) (t p : Bytes) :
    (GitObj.toRaw o).1 = hexEncode (sha1 (specHeader o.objectType o.content ++ o.content))
    ∧ hexEncode (FsUtils.writeObjectHashRaw t p) = hexEncode (sha1 (specHeader t p ++ p)) := by
  constructor
  · simp [GitObj.toRaw, specHeader, List.append_assoc]
  · simp [FsUtils.writeObjectHashRaw, FsUtils.writeObjectBytes, createHash,
      specHeader, List.append_assoc]

/-- C7, counterexample: `TreeLines::to_bytes` is `todo!()` — it panics
on every input instead of emitting the serialized entries, here on a
single well-formed tree line. -/
theorem c7_toBytes_stub_cx :
    TreeLines.toBytes [⟨fileModeTag, ascii ("a"),
      ascii ("abababababababababababababababababababab")⟩] = PResult.panicked := rfl

theorem writeTreeLoop_flatten (l : List (Bytes × FsEntry)) :
    writeTreeLoop l = ((l.filter (fun x => decide (x.1 ≠ gitBaseDir))).map
      (fun x => (if x.2.isDir then folderModeTag else fileModeTag)
        ++ [32] ++ x.1 ++ [0] ++ entryTargetHash x)).flatten := by
  induction l with
  | nil => simp [writeTreeLoop]
  | cons x rest ih =>
    rw [writeTreeLoop]
    by_cases h : x.1 = gitBaseDir
    · simp [h, ih]
    · simp [h, ih]

/-- C7, amended: the inline encoding of `FsUtils::write_tree` does emit,
for each entry of the sorted listing except the storage root's metadata
directory, the ASCII mode tag, a space, the name, a NUL and then the
entry's raw 20-byte target hash, all concatenated with no delimiter;
`TreeLines::to_bytes`, however, is an unimplemented `todo!()` stub that
panics instead of producing this encoding. -/
theorem c7_writeTree_format (es : List (Bytes × FsEntry)) :
    writeTreePayload es = (((sortEntries es).filter
        (fun x => decide (x.1 ≠ gitBaseDir))).map
      (fun x => (if x.2.isDir then folderModeTag else fileModeTag)
        ++ [32] ++ x.1 ++ [0] ++ entryTargetHash x)).flatten
    ∧ ∀ x : Bytes × FsEntry, (entryTargetHash x).length = 20 := by
  constructor
  · rw [writeTreePayload, writeTreeLoop_flatten]
  · intro x
    rcases x with ⟨n, e⟩
    cases e <;>
      simp [entryTargetHash, FsUtils.writeObjectHashRaw, createHash, sha1_length]

/-- C10: the two independent encode-and-persist paths agree byte for
byte: for either type tag and any content (a Rust `String`'s bytes, so
any valid-UTF-8 payload), the hex hash of `GitObject::to_raw` equals the
hex of `FsUtils::write_object`'s raw hash — so both paths shard and name
the stored file identically — and the compressed bytes coincide. -/
theorem c10_encode_paths_agree (content : Bytes) :
    ((GitObj.blob content).toRaw).1 = hexEncode (FsUtils.writeObjectHashRaw blobTag content)
    ∧ ((GitObj.blob content).toRaw).2 = FsUtils.writeObjectCompressed blobTag content
    ∧ ((GitObj.tree content).toRaw).1 = hexEncode (FsUtils.writeObjectHashRaw treeTag content)
    ∧ ((GitObj.tree content).toRaw).2 = FsUtils.writeObjectCompressed treeTag content := by
  refine ⟨?_, ?_, ?_, ?_⟩ <;>
    simp [GitObj.toRaw, FsUtils.writeObjectHashRaw, FsUtils.writeObjectCompressed,
      FsUtils.writeObjectBytes, createHash, compress, GitObj.objectType,
      GitObj.content, List.append_assoc]

end GitModel
